import Mathlib

/-
Shallow embedding of the segregated-free-list allocator
(src/labs/malloc-lab/seg_free_list_allocator/mm.c) and proofs about it.

The heap is modelled as a byte-addressed word memory (a function from byte
addresses to 32-bit word values); allocator state additionally carries the
sbrk break, the 28 segregated free-list head pointers and heap_listp.
mm_macros.h and memlib.c are not part of the sources, so the handful of
word/bit macros and the sbrk primitive are modelled from the spec (each such
definition carries a doc comment saying so); everything else is translated
directly from mm.c.  Loops are written with explicit fuel so that every
definition stays executable.
-/

/-- Machine word size in bytes of the 32-bit build (one-word headers whose
size field occupies bits 31..3, per the block-structure comment in mm.c). -/
def WSIZE : Nat := 4

/-- Modulus of 32-bit size_t arithmetic. -/
def WORD_MOD : Nat := 4294967296

/-- Modelled from the spec: the default extension chunk size configuration
constant (defined in the missing mm_macros.h). -/
def CHUNKSIZE : Nat := 4096

/-- Modelled from the spec: PACK(size, alloc) packs a block size (a multiple
of 16, so its three low bits are clear) with the allocated flag bit. -/
def PACK (size alloc : Nat) : Nat := size + alloc

/-- Modelled from the spec: GET_SIZE strips the three low flag bits from a
header word (size field in the high bits, two low flag bits, one reserved). -/
def GET_SIZE (v : Nat) : Nat := v - v % 8

/-- Modelled from the spec: GET_ALLOC reads the allocated flag (bit 0). -/
def GET_ALLOC (v : Nat) : Nat := v % 2

/-- Modelled from the spec: GET_PREV_ALLOC reads the previous-block-allocated
flag (bit 1), yielding 0 or 2 as the C bit mask does. -/
def GET_PREV_ALLOC (v : Nat) : Nat := v % 4 - v % 2

/-- Modelled from the spec: SET_SIZE replaces the size field of a header
word, keeping the three low flag bits. -/
def SET_SIZE (v size : Nat) : Nat := v % 8 + size

/-- Modelled from the spec: set the allocated bit (bit 0) of a header word. -/
def SET_CURR_ALLOC_BIT (v : Nat) : Nat := v - v % 2 + 1

/-- Modelled from the spec: set the previous-block-allocated bit (bit 1) of a
header word. -/
def SET_PREV_ALLOC_BIT (v : Nat) : Nat := v - v % 4 + v % 2 + 2

/-- Modelled from the spec: ALIGN rounds a byte count up to the 16-byte block
granularity, in 32-bit size_t arithmetic. -/
def ALIGN (x : Nat) : Nat := (x + 15) % WORD_MOD / 16 * 16

/-- Modelled from the spec: ALIGN_CHUNKSIZE rounds an extension request up to
the chunk granularity, in 32-bit size_t arithmetic. -/
def ALIGN_CHUNKSIZE (x : Nat) : Nat := (x + CHUNKSIZE - 1) / CHUNKSIZE * CHUNKSIZE % WORD_MOD

/-- Byte-addressed word memory: writing stores a 32-bit-truncated value at a
single (word-aligned) byte address. -/
def writeWord (m : Nat → Nat) (a v : Nat) : Nat → Nat :=
  fun x => if x = a then v % WORD_MOD else m x

/-- Allocator state: the word memory, the sbrk break, the 28 segregated
free-list head pointers (0 encodes NULL), and heap_listp. -/
structure AllocState where
  mem : Nat → Nat
  brk : Nat
  segList : List Nat
  heapStart : Nat

/-- Modelled from the spec: the HeapRegion extend primitive mem_sbrk
(memlib.c is not in the sources).  It grows the break monotonically by n
bytes and returns the base of the newly appended region, or fails when the
provider's limit is exceeded. -/
def mem_sbrk (limit : Nat) (s : AllocState) (n : Nat) : Option (Nat × AllocState) :=
  if s.brk + n ≤ limit then
    some (s.brk, AllocState.mk s.mem (s.brk + n) s.segList s.heapStart)
  else none

/-- Modelled from the spec: write the prev link stored in the first payload
word of a free block. -/
def SET_PREV_PTR (m : Nat → Nat) (hdrp p : Nat) : Nat → Nat :=
  writeWord m (hdrp + WSIZE) p

/-- Modelled from the spec: write the next link stored in the second payload
word of a free block. -/
def SET_NEXT_PTR (m : Nat → Nat) (hdrp p : Nat) : Nat → Nat :=
  writeWord m (hdrp + 2 * WSIZE) p

/-- Modelled from the spec: read the prev link of a free block. -/
def GET_PREV_PTR (m : Nat → Nat) (hdrp : Nat) : Nat := m (hdrp + WSIZE)

/-- Modelled from the spec: read the next link of a free block. -/
def GET_NEXT_PTR (m : Nat → Nat) (hdrp : Nat) : Nat := m (hdrp + 2 * WSIZE)

/-- The 28 size-class boundaries of mm.c: powers of two from 2^4 to 2^31. -/
def index_array : List Nat :=
  [16, 32, 64, 128, 256, 512, 1024, 2048, 4096, 8192, 16384, 32768,
   65536, 131072, 262144, 524288, 1048576, 2097152, 4194304, 8388608,
   16777216, 33554432, 67108864, 134217728, 268435456, 536870912,
   1073741824, 2147483648]

/-- Number of size classes. -/
def index_arr_size : Nat := 28

/-- The binary-search loop of find_index, with fuel (the C loop narrows
high - low, so fuel 28 always suffices). -/
def fiLoop (size : Nat) : Nat → Nat → Nat → Nat
  | 0, low, _ => low
  | fuel + 1, low, high =>
    if low < high then
      if size < index_array.getD ((high + low) / 2) 0 then
        fiLoop size fuel low ((high + low) / 2)
      else
        fiLoop size fuel ((high + low) / 2 + 1) high
    else low

/-- find_index of mm.c: binary search over index_array, returning low - 1
(as a C int, so -1 for sizes below the first boundary). -/
def find_index (size : Nat) : Int := (fiLoop size 28 0 index_arr_size : Int) - 1

/-- init_free_block of mm.c: write header, mirrored footer and NULL links. -/
def init_free_block (s : AllocState) (hdrp bk_size : Nat) : AllocState :=
  let m1 := writeWord s.mem hdrp (PACK bk_size 0)
  let m2 := writeWord m1 (hdrp + bk_size - WSIZE) (m1 hdrp)
  let m3 := SET_PREV_PTR m2 hdrp 0
  let m4 := SET_NEXT_PTR m3 hdrp 0
  AllocState.mk m4 s.brk s.segList s.heapStart

/-- The walk of the address-ordered insert: advance head while its successor
exists and has a smaller address than the block being inserted. -/
def insertWalk (m : Nat → Nat) (hdrp : Nat) : Nat → Nat → Nat
  | 0, head => head
  | fuel + 1, head =>
    if GET_NEXT_PTR m head ≠ 0 ∧ GET_NEXT_PTR m head < hdrp then
      insertWalk m hdrp fuel (GET_NEXT_PTR m head)
    else head

/-- insert_into_size_class of mm.c (the address-ordered discipline, since
__LIFO_ORDERING__ is not defined in the build). -/
def insert_into_size_class (s : AllocState) (hdrp index : Nat) : AllocState :=
  let head := s.segList.getD index 0
  if head = 0 then
    AllocState.mk s.mem s.brk (s.segList.set index hdrp) s.heapStart
  else if hdrp < head then
    let m1 := SET_NEXT_PTR s.mem hdrp head
    let m2 := SET_PREV_PTR m1 hdrp 0
    let m3 := SET_PREV_PTR m2 head hdrp
    AllocState.mk m3 s.brk (s.segList.set index hdrp) s.heapStart
  else
    let h2 := insertWalk s.mem hdrp (s.brk + 2) head
    let m1 := SET_NEXT_PTR s.mem hdrp (GET_NEXT_PTR s.mem h2)
    let m2 := SET_NEXT_PTR m1 h2 hdrp
    let m3 := SET_PREV_PTR m2 hdrp h2
    let m4 := if GET_NEXT_PTR m3 hdrp ≠ 0 then
                SET_PREV_PTR m3 (GET_NEXT_PTR m3 hdrp) hdrp
              else m3
    AllocState.mk m4 s.brk s.segList s.heapStart

/-- coalesce of mm.c: boundary-tag merge with the four neighbor cases,
returning the (possibly moved) payload pointer. -/
def coalesce (s : AllocState) (pldp : Nat) : Nat × AllocState :=
  let hdrp := pldp - WSIZE
  let size := GET_SIZE (s.mem hdrp)
  let prev_alloc := GET_PREV_ALLOC (s.mem hdrp)
  let next_alloc := GET_ALLOC (s.mem (hdrp + size))
  if prev_alloc ≠ 0 ∧ next_alloc ≠ 0 then
    (pldp, s)
  else if prev_alloc = 0 ∧ next_alloc ≠ 0 then
    let prev_hdrp := hdrp - GET_SIZE (s.mem (hdrp - WSIZE))
    let m1 := writeWord s.mem prev_hdrp (s.mem prev_hdrp + size)
    let m2 := writeWord m1 (hdrp + size - WSIZE) (m1 prev_hdrp)
    (prev_hdrp + WSIZE, AllocState.mk m2 s.brk s.segList s.heapStart)
  else if prev_alloc ≠ 0 ∧ next_alloc = 0 then
    let next_size := GET_SIZE (s.mem (hdrp + size))
    let m1 := writeWord s.mem hdrp (s.mem hdrp + next_size)
    let m2 := writeWord m1 (hdrp + size + next_size - WSIZE) (m1 hdrp)
    (pldp, AllocState.mk m2 s.brk s.segList s.heapStart)
  else
    let prev_size := GET_SIZE (s.mem (hdrp - WSIZE))
    let prev_hdrp := hdrp - prev_size
    let next_size := GET_SIZE (s.mem (hdrp + size))
    let m1 := writeWord s.mem prev_hdrp (s.mem prev_hdrp + size + next_size)
    let m2 := writeWord m1 (hdrp + size + next_size - WSIZE) (m1 prev_hdrp)
    (prev_hdrp + WSIZE, AllocState.mk m2 s.brk s.segList s.heapStart)

/-- extend_heap of mm.c: grow by the chunk-aligned size, turn the old
epilogue word into the header of one new free block, register that block in
the class of its pre-merge size, write the new epilogue, and coalesce. -/
def extend_heap (limit : Nat) (s : AllocState) (size : Nat) : Option (Nat × AllocState) :=
  let asize := ALIGN_CHUNKSIZE size
  match mem_sbrk limit s asize with
  | none => none
  | some (p, s1) =>
    let hdrp := p - WSIZE
    let s2 := init_free_block s1 hdrp asize
    let s3 := insert_into_size_class s2 hdrp (find_index asize).toNat
    let s4 := AllocState.mk (writeWord s3.mem (hdrp + asize) (PACK 0 1)) s3.brk s3.segList s3.heapStart
    some (coalesce s4 (hdrp + WSIZE))

/-- The linear heap walk of find_first_fit, with fuel: test the current
block for a free first fit, stop after a zero-size block (the epilogue). -/
def ffAux (m : Nat → Nat) (asize : Nat) : Nat → Nat → Option Nat
  | 0, _ => none
  | fuel + 1, hdrp =>
    if asize ≤ GET_SIZE (m hdrp) ∧ GET_ALLOC (m hdrp) = 0 then
      some (hdrp + WSIZE)
    else if GET_SIZE (m hdrp) = 0 then none
    else ffAux m asize fuel (hdrp + GET_SIZE (m hdrp))

/-- find_first_fit of mm.c: a linear address-ordered scan of the whole heap
starting at heap_listp; it never consults segregated_free_list. -/
def find_first_fit (s : AllocState) (asize : Nat) : Option Nat :=
  ffAux s.mem asize (s.brk + 2) s.heapStart

/-- place_and_split of mm.c: split when the remainder is nonzero and
16-aligned (IS_ALIGN_WITH_MIN_BK_SIZE, modelled from the source comment as
a multiple-of-minimum-block-size test), then mark the placed block
allocated and fix the following block's prev_alloc bit (and, if that block
is free, its footer copy too).  The remainder is written with header and
footer only; no list insertion happens here, and the placed block is not
unlinked from any list. -/
def place_and_split (s : AllocState) (pldp asize : Nat) : AllocState :=
  let hdrp := pldp - WSIZE
  let b_size := GET_SIZE (s.mem hdrp)
  let left_size := (b_size + WORD_MOD - asize) % WORD_MOD
  let step :=
    if left_size ≠ 0 ∧ left_size % 16 = 0 then
      let ma := writeWord s.mem (hdrp + asize) (PACK left_size 0)
      let mb := writeWord ma (hdrp + asize + left_size - WSIZE) (ma (hdrp + asize))
      (mb, asize)
    else (s.mem, b_size)
  let m1 := step.1
  let b_size2 := step.2
  let m2 := writeWord m1 hdrp (SET_SIZE (m1 hdrp) b_size2)
  let m3 := writeWord m2 hdrp (SET_CURR_ALLOC_BIT (m2 hdrp))
  let m4 := writeWord m3 (hdrp + b_size2) (SET_PREV_ALLOC_BIT (m3 (hdrp + b_size2)))
  let m5 :=
    if GET_ALLOC (m4 (hdrp + b_size2)) ≠ 0 then m4
    else
      writeWord m4 (hdrp + b_size2 + GET_SIZE (m4 (hdrp + b_size2)) - WSIZE)
        (SET_PREV_ALLOC_BIT (m4 (hdrp + b_size2 + GET_SIZE (m4 (hdrp + b_size2)) - WSIZE)))
  AllocState.mk m5 s.brk s.segList s.heapStart

/-- mm_malloc of mm.c: zero-size requests yield no block; otherwise align
the request, try the fit search, and on failure fall back to one heap
extension; a second failure yields no block.  The function is total: there
is no aborting path (the asserts in mm.c's malloc path are compiled only
under __HEAP_CHECK__, which the build leaves undefined). -/
def mm_malloc (limit : Nat) (s : AllocState) (size : Nat) : Option Nat × AllocState :=
  if size = 0 then (none, s)
  else
    let asize := ALIGN ((size + WSIZE) % WORD_MOD)
    match find_first_fit s asize with
    | some pldp => (some pldp, place_and_split s pldp asize)
    | none =>
      match extend_heap limit s asize with
      | none => (none, s)
      | some (pldp, s1) => (some pldp, place_and_split s1 pldp asize)

/-- Result of a C function that can die on a failed assert. -/
inductive AbortOr (α : Type) where
  | val : α → AbortOr α
  | assertFail : AbortOr α

/-- mm_free of mm.c: its entire body (outside the diagnostic build) is
assert(NULL), which always fails. -/
def mm_free (_ptr : Nat) : AbortOr Unit := AbortOr.assertFail

/-- mm_realloc of mm.c: its entire body is assert(NULL), which always
fails. -/
def mm_realloc (_ptr _size : Nat) : AbortOr Nat := AbortOr.assertFail

/-- The merging loop of forward_collect, with fuel: walk backward through
preceding free blocks via their footers while the collected run is still
short of the target, accumulating into the walked-to header and mirroring
it into the original footer position. -/
def fcLoop (old_size target ftrp : Nat) : Nat → (Nat → Nat) → Nat → Nat → Nat × Nat × (Nat → Nat)
  | 0, m, collected, ret => (ret, collected, m)
  | fuel + 1, m, collected, ret =>
    if collected + old_size < target ∧ GET_PREV_ALLOC (m ret) = 0 then
      let ns := GET_SIZE (m (ret - WSIZE))
      let m1 := writeWord m (ret - ns) (m (ret - ns) + collected)
      let m2 := writeWord m1 ftrp (m1 (ret - ns))
      fcLoop old_size target ftrp fuel m2 (GET_SIZE (m1 (ret - ns))) (ret - ns)
    else (ret, collected, m)

/-- forward_collect of mm.c (never invoked by any caller in the program).
Returns the resulting header pointer, the collected size out-parameter
(left 0 when the function returns immediately, where the C leaves the
caller's variable untouched), and the memory. -/
def forward_collect (s : AllocState) (hdrp target : Nat) : Nat × Nat × AllocState :=
  if GET_PREV_ALLOC (s.mem hdrp) ≠ 0 then (hdrp, 0, s)
  else
    let c0 := GET_SIZE (s.mem (hdrp - WSIZE))
    let r := fcLoop (GET_SIZE (s.mem hdrp)) target (hdrp - WSIZE) (s.brk + 2) s.mem c0 (hdrp - c0)
    (r.1, r.2.1, AllocState.mk r.2.2 s.brk s.segList s.heapStart)

/-- The merging loop of backward_collect, with fuel: absorb following free
blocks into the current header while its size is below the target, setting
the prev_alloc bit of each new successor. -/
def bcLoop (target : Nat) : Nat → (Nat → Nat) → Nat → Nat → (Nat → Nat)
  | 0, m, _, _ => m
  | fuel + 1, m, hdrp, next_hdrp =>
    if GET_SIZE (m hdrp) < target ∧ GET_ALLOC (m next_hdrp) = 0 then
      let ns := GET_SIZE (m next_hdrp)
      let m1 := writeWord m hdrp (m hdrp + ns)
      let m2 := writeWord m1 (next_hdrp + ns) (SET_PREV_ALLOC_BIT (m1 (next_hdrp + ns)))
      bcLoop target fuel m2 hdrp (next_hdrp + ns)
    else m

/-- backward_collect of mm.c (never invoked by any caller in the program;
the C function is even missing its return statement despite a non-void
return type, so only its state effect is modelled). -/
def backward_collect (s : AllocState) (hdrp target : Nat) : AllocState :=
  AllocState.mk (bcLoop target (s.brk + 2) s.mem hdrp (hdrp + GET_SIZE (s.mem hdrp)))
    s.brk s.segList s.heapStart

/-- mm_init of mm.c: sbrk two words for the start/end padding, write the two
zero-size allocated sentinels, point heap_listp at the end padding, clear
the 28 list heads, and perform the initial CHUNKSIZE extension. -/
def mm_init (limit base : Nat) : Option AllocState :=
  let s0 := AllocState.mk (fun _ => 0) base (List.replicate 28 0) 0
  match mem_sbrk limit s0 (2 * WSIZE) with
  | none => none
  | some (p, s1) =>
    let m1 := writeWord s1.mem p (PACK 0 1)
    let m2 := writeWord m1 (p + WSIZE) (PACK 0 1)
    let s2 := AllocState.mk m2 s1.brk s1.segList (p + WSIZE)
    match extend_heap limit s2 CHUNKSIZE with
    | none => none
    | some (_, s3) => some s3

/-- Build a concrete word memory from address/value pairs (test states). -/
def memOfList (l : List (Nat × Nat)) : Nat → Nat :=
  l.foldr (fun p m => writeWord m p.1 p.2) (fun _ => 0)

/-- Test state: heap [prologue@8 | free 64-byte block@12 | epilogue@76],
all 28 class lists empty. -/
def sC1 : AllocState :=
  AllocState.mk (memOfList [(8, 1), (12, 66), (24, 66), (72, 66), (76, 1)])
    80 (List.replicate 28 0) 12

/-- Test state: heap [prologue@8 | free 64-byte block@12 | epilogue@76],
with the free block registered in its class-2 list. -/
def sC2 : AllocState :=
  AllocState.mk (memOfList [(8, 1), (12, 66), (16, 0), (20, 0), (72, 66), (76, 1)])
    80 ((List.replicate 28 0).set 2 12) 12

/-- Test state: heap [prologue@8 | free 16-byte block@12 | epilogue@28],
with the free block registered in its class-0 list, break at 32. -/
def sC4 : AllocState :=
  AllocState.mk (memOfList [(8, 1), (12, 18), (16, 0), (20, 0), (24, 18), (28, 1)])
    32 ((List.replicate 28 0).set 0 12) 12

/-- Heap extension of sC4 by 8192 bytes. -/
def eC4 : Option (Nat × AllocState) := extend_heap 100000 sC4 8192

/-- The state after the sC4 extension. -/
def sC4' : AllocState := (eC4.getD (0, sC4)).2

/-- Test state: heap [prologue@8 | free 16@12 | free 16@28 | epilogue@44],
break at 48 (two neighboring free blocks before the epilogue). -/
def sC9 : AllocState :=
  AllocState.mk (memOfList [(8, 1), (12, 18), (24, 18), (28, 16), (40, 16), (44, 1)])
    48 ((List.replicate 28 0).set 0 28) 12

/-- Heap extension of sC9 by 8192 bytes. -/
def eC9 : Option (Nat × AllocState) := extend_heap 100000 sC9 8192

/-- The state after the sC9 extension. -/
def sC9' : AllocState := (eC9.getD (0, sC9)).2

/-- Memory of the coalesce witness state: free 16-byte blocks at 12, 28 and
44, with valid mirrored footers, followed by an allocated word at 60. -/
def wMem : Nat → Nat :=
  memOfList [(12, 18), (24, 18), (28, 16), (40, 16), (44, 16), (56, 16), (60, 3)]

/-- The coalesce witness state. -/
def wState : AllocState := AllocState.mk wMem 64 (List.replicate 28 0) 12

/-- Pointwise reading of a write at the written address. -/
theorem writeWord_same (m : Nat → Nat) (a v : Nat) : writeWord m a v a = v % WORD_MOD := by
  simp [writeWord]

/-- Pointwise reading of a write at a different address. -/
theorem writeWord_other (m : Nat → Nat) (a v x : Nat) (h : x ≠ a) : writeWord m a v x = m x := by
  simp [writeWord, h]

/-- C1: against the claim that the fit search operates through the
segregated size-class table (scanning class class_of(asize) and larger
classes, and returning None when every class is exhausted), in state sC1
every one of the 28 class lists is empty and yet find_first_fit answers the
asize = 32 request with the free block at payload 16: the search is a
linear scan of the heap by address that never reads the table. -/
theorem find_first_fit_ignores_size_classes :
    (∀ i, i < 28 → sC1.segList.getD i 0 = 0) ∧ find_first_fit sC1 32 = some 16 := by
  decide

/-- C2: against the claim that a block is unlinked from its class list the
moment it stops being free, placing the whole free block of size 64 that is
the head of the class-2 list of sC2 leaves it allocated and still at the
head of that list (place_and_split performs no removal, and neither does
coalesce). -/
theorem place_keeps_block_listed :
    GET_ALLOC ((place_and_split sC2 16 64).mem 12) = 1 ∧
    (place_and_split sC2 16 64).segList.getD 2 0 = 12 ∧
    (place_and_split sC2 16 64).segList = sC2.segList := by
  decide

/-- C3: against the claim that release and reallocate are real operations
that never unconditionally abort, mm_free and mm_realloc consist solely of
assert(NULL): every call dies on a failed assertion. -/
theorem mm_free_realloc_abort :
    (∀ p, mm_free p = AbortOr.assertFail) ∧
    (∀ p n, mm_realloc p n = AbortOr.assertFail) :=
  ⟨fun _ => rfl, fun _ _ => rfl⟩

/-- C4: against the claim that after a coalescing merge during heap
extension the merged block is (re)registered in the class of its post-merge
size, extending sC4 (whose last block, at 12 with size 16, is free and in
the class-0 list) by 8192 bytes leaves the post-merge state inconsistent:
the merged free block lives at 12 with size 8208 (class 9), but the class-9
list holds only the stale pre-merge pointer 28 (now an interior address of
the merged block) and the merged block itself is still registered in
class 0, violating boundary_0 <= S < boundary_1. -/
theorem extend_heap_stale_registration :
    eC4.map Prod.fst = some 16 ∧
    GET_SIZE (sC4'.mem 12) = 8208 ∧ GET_ALLOC (sC4'.mem 12) = 0 ∧
    find_index 8208 = 9 ∧
    sC4'.segList.getD 9 0 = 28 ∧ GET_NEXT_PTR sC4'.mem 28 = 0 ∧
    sC4'.segList.getD 0 0 = 12 := by
  decide

/-- C5: against the final clause of the claim (the split remainder is
inserted into its size class), splitting the free 64-byte block of sC2 with
asize = 32 writes the 32-byte remainder at header 44 with matching header
and footer but inserts it into no list: class 1 (the class of size 32)
stays empty and the whole table is untouched. -/
theorem split_remainder_not_inserted :
    GET_SIZE ((place_and_split sC2 16 32).mem 44) = 32 ∧
    GET_ALLOC ((place_and_split sC2 16 32).mem 44) = 0 ∧
    (place_and_split sC2 16 32).mem 72 = (place_and_split sC2 16 32).mem 44 ∧
    find_index 32 = 1 ∧
    (place_and_split sC2 16 32).segList.getD 1 0 = 0 ∧
    (place_and_split sC2 16 32).segList = sC2.segList := by
  decide

/-- C8: against the claim that requests beyond the largest size class are
explicitly rejected, mm_malloc computes asize = ALIGN(size + WSIZE) in
32-bit size_t arithmetic: the request for 2^32 - 1 bytes (whose block would
exceed every class boundary, the largest being 2^31) silently wraps to an
aligned size of 16 and is answered with the 16-byte slice at payload 16 of
sC2's free block instead of being rejected. -/
theorem mm_malloc_wraps_huge_request :
    (mm_malloc 100000 sC2 (2 ^ 32 - 1)).1 = some 16 ∧
    ALIGN ((2 ^ 32 - 1 + WSIZE) % WORD_MOD) = 16 ∧
    2 ^ 31 < 2 ^ 32 - 1 := by
  decide

/-- C9: against the claim that the heap-extension path invokes
forward_collect/backward_collect to keep merging the new space with free
neighbors relative to the target size, extending sC9 (two adjacent free
16-byte blocks at 12 and 28 before the epilogue) by 8192 bytes performs
exactly the one unconditional coalesce with the immediately preceding
block: the result is the 8208-byte block at 28 while the further free
neighbor at 12 is left byte-for-byte unchanged and unmerged — the
collectors are dead code that extend_heap never calls. -/
theorem extend_heap_single_merge :
    eC9.map Prod.fst = some 32 ∧
    GET_SIZE (sC9'.mem 28) = 8208 ∧ GET_ALLOC (sC9'.mem 28) = 0 ∧
    sC9'.mem 12 = 18 ∧ GET_ALLOC (sC9'.mem 12) = 0 ∧ GET_SIZE (sC9'.mem 12) = 16 := by
  decide

/-- C6: mm_malloc returns no block exactly when the request is zero or when
both the fit search and the subsequent heap extension fail; extension
failure propagates as the none result (mm_malloc is a total function of the
state — there is no aborting path in it). -/
theorem mm_malloc_none_iff (limit : Nat) (s : AllocState) (size : Nat) :
    (mm_malloc limit s size).1 = none ↔
      size = 0 ∨
        (find_first_fit s (ALIGN ((size + WSIZE) % WORD_MOD)) = none ∧
         extend_heap limit s (ALIGN ((size + WSIZE) % WORD_MOD)) = none) := by
  by_cases h0 : size = 0
  · simp [mm_malloc, h0]
  · rcases hf : find_first_fit s (ALIGN ((size + WSIZE) % WORD_MOD)) with _ | p
    · rcases he : extend_heap limit s (ALIGN ((size + WSIZE) % WORD_MOD)) with _ | pr
      · simp [mm_malloc, h0, hf, he]
      · rcases pr with ⟨p1, s1⟩
        simp [mm_malloc, h0, hf, he]
    · simp [mm_malloc, h0, hf]

/-- The class boundaries are ascending. -/
theorem index_array_mono :
    ∀ j, j < 28 → ∀ i, i ≤ j → index_array.getD i 0 ≤ index_array.getD j 0 := by
  decide

/-- Loop invariant of find_index's binary search: starting from a window in
which everything below low is a boundary at most size and everything from
high on exceeds size, the loop returns the count of boundaries at most
size. -/
theorem fiLoop_inv (size : Nat) : ∀ fuel low high, high - low ≤ fuel → low ≤ high → high ≤ 28 →
    (∀ i, i < low → index_array.getD i 0 ≤ size) →
    (∀ i, high ≤ i → i < 28 → size < index_array.getD i 0) →
    low ≤ fiLoop size fuel low high ∧ fiLoop size fuel low high ≤ high ∧
    (∀ i, i < fiLoop size fuel low high → index_array.getD i 0 ≤ size) ∧
    (∀ i, fiLoop size fuel low high ≤ i → i < 28 → size < index_array.getD i 0) := by
  intro fuel
  induction fuel with
  | zero =>
    intro low high hfl hlh hh hlow hhigh
    have heq : low = high := by omega
    subst heq
    simp only [fiLoop]
    exact ⟨le_refl _, le_refl _, hlow, fun i hi => hhigh i hi⟩
  | succ fuel ih =>
    intro low high hfl hlh hh hlow hhigh
    by_cases hlt : low < high
    · have hmid1 : low ≤ (high + low) / 2 := by omega
      have hmid2 : (high + low) / 2 < high := by omega
      by_cases hcmp : size < index_array.getD ((high + low) / 2) 0
      · have hhigh2 : ∀ i, (high + low) / 2 ≤ i → i < 28 → size < index_array.getD i 0 := by
          intro i hmi hi28
          exact lt_of_lt_of_le hcmp (index_array_mono i hi28 ((high + low) / 2) hmi)
        have h2 := ih low ((high + low) / 2) (by omega) (by omega) (by omega) hlow hhigh2
        simp only [fiLoop, if_pos hlt, if_pos hcmp]
        exact ⟨h2.1, le_trans h2.2.1 (le_of_lt hmid2), h2.2.2.1, h2.2.2.2⟩
      · push_neg at hcmp
        have hlow2 : ∀ i, i < (high + low) / 2 + 1 → index_array.getD i 0 ≤ size := by
          intro i hi
          by_cases hil : i < low
          · exact hlow i hil
          · have hi28 : (high + low) / 2 < 28 := by omega
            exact le_trans (index_array_mono ((high + low) / 2) hi28 i (by omega)) hcmp
        have h2 := ih ((high + low) / 2 + 1) high (by omega) (by omega) hh hlow2 hhigh
        simp only [fiLoop, if_pos hlt, if_neg (not_lt.mpr hcmp)]
        exact ⟨le_trans (by omega) h2.1, h2.2.1, h2.2.2.1, h2.2.2.2⟩
    · have heq : low = high := by omega
      subst heq
      simp only [fiLoop, if_neg hlt]
      exact ⟨le_refl _, le_refl _, hlow, fun i hi => hhigh i hi⟩

/-- C7: for every size in [16, 2^32), find_index returns an index in
[0, 27] that is the greatest index whose class boundary is at most size,
and find_index is monotone on that range. -/
theorem find_index_spec :
    (∀ size, 16 ≤ size → size < 2 ^ 32 →
      0 ≤ find_index size ∧ find_index size ≤ 27 ∧
      index_array.getD (find_index size).toNat 0 ≤ size ∧
      (∀ j, j < 28 → index_array.getD j 0 ≤ size → (j : Int) ≤ find_index size)) ∧
    (∀ s1 s2, 16 ≤ s1 → s1 < s2 → s2 < 2 ^ 32 → find_index s1 ≤ find_index s2) := by
  simp only [find_index, index_arr_size]
  have main : ∀ size, 16 ≤ size →
      1 ≤ fiLoop size 28 0 28 ∧ fiLoop size 28 0 28 ≤ 28 ∧
      (∀ i, i < fiLoop size 28 0 28 → index_array.getD i 0 ≤ size) ∧
      (∀ i, fiLoop size 28 0 28 ≤ i → i < 28 → size < index_array.getD i 0) := by
    intro size h16
    have h := fiLoop_inv size 28 0 28 (by omega) (by omega) (by omega)
      (fun i hi => absurd hi (by omega))
      (fun i hi hi28 => absurd (lt_of_le_of_lt hi hi28) (lt_irrefl _))
    refine ⟨?_, h.2.1, h.2.2.1, h.2.2.2⟩
    by_contra hL
    have h0 := h.2.2.2 0 (by omega) (by omega)
    have harr : index_array.getD 0 0 = 16 := rfl
    omega
  constructor
  · intro size h16 h32
    obtain ⟨hL1, hL28, hlo, hhi⟩ := main size h16
    have htn : ((fiLoop size 28 0 28 : Int) - 1).toNat = fiLoop size 28 0 28 - 1 := by omega
    refine ⟨by omega, by omega, ?_, ?_⟩
    · rw [htn]
      exact hlo _ (by omega)
    · intro j hj28 hjle
      by_contra hcon
      push_neg at hcon
      have := hhi j (by omega) hj28
      omega
  · intro s1 s2 h1 h12 h2
    obtain ⟨hA1, hA28, hAlo, hAhi⟩ := main s1 h1
    obtain ⟨hB1, hB28, hBlo, hBhi⟩ := main s2 (by omega)
    by_contra h
    push_neg at h
    have harr1 : index_array.getD (fiLoop s1 28 0 28 - 1) 0 ≤ s1 := hAlo _ (by omega)
    have harr2 : s2 < index_array.getD (fiLoop s1 28 0 28 - 1) 0 := hBhi _ (by omega) (by omega)
    omega

/-- Witness for C7: the spec instantiated at size 100 (class index 2) and
the monotonicity instantiated at 40 < 70. -/
theorem find_index_spec_witness :
    ((16 : Nat) ≤ 100 ∧ (100 : Nat) < 2 ^ 32 ∧
      0 ≤ find_index 100 ∧ find_index 100 ≤ 27 ∧
      index_array.getD (find_index 100).toNat 0 ≤ 100) ∧
    ((16 : Nat) ≤ 40 ∧ (40 : Nat) < 70 ∧ (70 : Nat) < 2 ^ 32 ∧
      find_index 40 ≤ find_index 70) := by
  have h := find_index_spec.1 100 (by decide) (by decide)
  exact ⟨⟨by decide, by decide, h.1, h.2.1, h.2.2.1⟩,
    by decide, by decide, by decide, find_index_spec.2 40 70 (by decide) (by decide) (by decide)⟩

/-- C10: for every block whose boundary tags satisfy the locally relevant
section-3 invariants (sizes are 16-multiples of at least 16, a free
predecessor's footer agrees with its header, and the merged size does not
overflow the 32-bit word), coalesce conserves total size in each of its
four neighbor cases: the size recorded in the header of the returned block
equals the sum of the sizes of the blocks that were merged, and the
returned payload pointer is the payload of that merged block. -/
theorem coalesce_conserves_size
    (s : AllocState) (hdrp size psize nsize : Nat)
    (hsz : size = GET_SIZE (s.mem hdrp))
    (hps : psize = GET_SIZE (s.mem (hdrp - WSIZE)))
    (hns : nsize = GET_SIZE (s.mem (hdrp + size)))
    (h16 : 16 ≤ size) (hmod : size % 16 = 0)
    (hprev : GET_PREV_ALLOC (s.mem hdrp) = 0 →
      16 ≤ psize ∧ psize % 16 = 0 ∧ psize ≤ hdrp ∧
      GET_SIZE (s.mem (hdrp - psize)) = psize ∧
      s.mem (hdrp - psize) + size + nsize < WORD_MOD)
    (hnext : GET_ALLOC (s.mem (hdrp + size)) = 0 →
      16 ≤ nsize ∧ nsize % 16 = 0 ∧ s.mem hdrp + nsize < WORD_MOD) :
    (GET_PREV_ALLOC (s.mem hdrp) ≠ 0 ∧ GET_ALLOC (s.mem (hdrp + size)) ≠ 0 →
      (coalesce s (hdrp + WSIZE)).1 = hdrp + WSIZE ∧
      GET_SIZE ((coalesce s (hdrp + WSIZE)).2.mem hdrp) = size) ∧
    (GET_PREV_ALLOC (s.mem hdrp) = 0 ∧ GET_ALLOC (s.mem (hdrp + size)) ≠ 0 →
      (coalesce s (hdrp + WSIZE)).1 = hdrp - psize + WSIZE ∧
      GET_SIZE ((coalesce s (hdrp + WSIZE)).2.mem (hdrp - psize)) = psize + size) ∧
    (GET_PREV_ALLOC (s.mem hdrp) ≠ 0 ∧ GET_ALLOC (s.mem (hdrp + size)) = 0 →
      (coalesce s (hdrp + WSIZE)).1 = hdrp + WSIZE ∧
      GET_SIZE ((coalesce s (hdrp + WSIZE)).2.mem hdrp) = size + nsize) ∧
    (GET_PREV_ALLOC (s.mem hdrp) = 0 ∧ GET_ALLOC (s.mem (hdrp + size)) = 0 →
      (coalesce s (hdrp + WSIZE)).1 = hdrp - psize + WSIZE ∧
      GET_SIZE ((coalesce s (hdrp + WSIZE)).2.mem (hdrp - psize)) = psize + size + nsize) := by
  subst hsz
  subst hns
  subst hps
  refine ⟨?_, ?_, ?_, ?_⟩
  · rintro ⟨h1, h2⟩
    simp only [coalesce, Nat.add_sub_cancel, if_pos (And.intro h1 h2)]
    refine ⟨?_, ?_⟩ <;> simp
  · rintro ⟨h1, h2⟩
    obtain ⟨hp16, hpmod, hple, hphdr, hov⟩ := hprev h1
    simp only [coalesce, Nat.add_sub_cancel]
    rw [if_neg (fun hc => hc.1 h1), if_pos (And.intro h1 h2)]
    refine ⟨rfl, ?_⟩
    show GET_SIZE
      (writeWord
        (writeWord s.mem (hdrp - GET_SIZE (s.mem (hdrp - WSIZE)))
          (s.mem (hdrp - GET_SIZE (s.mem (hdrp - WSIZE))) + GET_SIZE (s.mem hdrp)))
        (hdrp + GET_SIZE (s.mem hdrp) - WSIZE)
        (writeWord s.mem (hdrp - GET_SIZE (s.mem (hdrp - WSIZE)))
          (s.mem (hdrp - GET_SIZE (s.mem (hdrp - WSIZE))) + GET_SIZE (s.mem hdrp))
          (hdrp - GET_SIZE (s.mem (hdrp - WSIZE))))
        (hdrp - GET_SIZE (s.mem (hdrp - WSIZE)))) =
      GET_SIZE (s.mem (hdrp - WSIZE)) + GET_SIZE (s.mem hdrp)
    have hne1 : hdrp - GET_SIZE (s.mem (hdrp - WSIZE)) ≠ hdrp + GET_SIZE (s.mem hdrp) - WSIZE := by
      simp only [WSIZE] at *
      omega
    rw [writeWord_other _ _ _ _ hne1, writeWord_same, Nat.mod_eq_of_lt (by omega)]
    simp only [GET_SIZE] at hphdr hmod ⊢
    omega
  · rintro ⟨h1, h2⟩
    obtain ⟨hn16, hnmod, hov⟩ := hnext h2
    simp only [coalesce, Nat.add_sub_cancel]
    rw [if_neg (fun hc => hc.2 h2), if_neg (fun hc => h1 hc.1), if_pos (And.intro h1 h2)]
    refine ⟨rfl, ?_⟩
    show GET_SIZE
      (writeWord
        (writeWord s.mem hdrp (s.mem hdrp + GET_SIZE (s.mem (hdrp + GET_SIZE (s.mem hdrp)))))
        (hdrp + GET_SIZE (s.mem hdrp) + GET_SIZE (s.mem (hdrp + GET_SIZE (s.mem hdrp))) - WSIZE)
        (writeWord s.mem hdrp (s.mem hdrp + GET_SIZE (s.mem (hdrp + GET_SIZE (s.mem hdrp)))) hdrp)
        hdrp) =
      GET_SIZE (s.mem hdrp) + GET_SIZE (s.mem (hdrp + GET_SIZE (s.mem hdrp)))
    have hne1 : hdrp ≠ hdrp + GET_SIZE (s.mem hdrp) + GET_SIZE (s.mem (hdrp + GET_SIZE (s.mem hdrp))) - WSIZE := by
      simp only [WSIZE] at *
      omega
    rw [writeWord_other _ _ _ _ hne1, writeWord_same, Nat.mod_eq_of_lt (by omega)]
    simp only [GET_SIZE] at hnmod hmod ⊢
    omega
  · rintro ⟨h1, h2⟩
    obtain ⟨hp16, hpmod, hple, hphdr, hov⟩ := hprev h1
    obtain ⟨hn16, hnmod, hov2⟩ := hnext h2
    simp only [coalesce, Nat.add_sub_cancel]
    rw [if_neg (fun hc => hc.1 h1), if_neg (fun hc => hc.2 h2), if_neg (fun hc => hc.1 h1)]
    refine ⟨rfl, ?_⟩
    show GET_SIZE
      (writeWord
        (writeWord s.mem (hdrp - GET_SIZE (s.mem (hdrp - WSIZE)))
          (s.mem (hdrp - GET_SIZE (s.mem (hdrp - WSIZE))) + GET_SIZE (s.mem hdrp) +
            GET_SIZE (s.mem (hdrp + GET_SIZE (s.mem hdrp)))))
        (hdrp + GET_SIZE (s.mem hdrp) + GET_SIZE (s.mem (hdrp + GET_SIZE (s.mem hdrp))) - WSIZE)
        (writeWord s.mem (hdrp - GET_SIZE (s.mem (hdrp - WSIZE)))
          (s.mem (hdrp - GET_SIZE (s.mem (hdrp - WSIZE))) + GET_SIZE (s.mem hdrp) +
            GET_SIZE (s.mem (hdrp + GET_SIZE (s.mem hdrp))))
          (hdrp - GET_SIZE (s.mem (hdrp - WSIZE))))
        (hdrp - GET_SIZE (s.mem (hdrp - WSIZE)))) =
      GET_SIZE (s.mem (hdrp - WSIZE)) + GET_SIZE (s.mem hdrp) +
        GET_SIZE (s.mem (hdrp + GET_SIZE (s.mem hdrp)))
    have hne1 : hdrp - GET_SIZE (s.mem (hdrp - WSIZE)) ≠
        hdrp + GET_SIZE (s.mem hdrp) + GET_SIZE (s.mem (hdrp + GET_SIZE (s.mem hdrp))) - WSIZE := by
      simp only [WSIZE] at *
      omega
    rw [writeWord_other _ _ _ _ hne1, writeWord_same, Nat.mod_eq_of_lt (by omega)]
    simp only [GET_SIZE] at hphdr hmod hnmod ⊢
    omega

theorem coalesce_conserves_size_witness :
    (16 = GET_SIZE (wState.mem 28) ∧ 16 = GET_SIZE (wState.mem 24) ∧
      16 = GET_SIZE (wState.mem 44) ∧
      GET_PREV_ALLOC (wState.mem 28) = 0 ∧ GET_ALLOC (wState.mem 44) = 0) ∧
    (coalesce wState 32).1 = 16 ∧ GET_SIZE ((coalesce wState 32).2.mem 12) = 48 := by
  have h := coalesce_conserves_size wState 28 16 16 16 (by decide) (by decide) (by decide)
    (by decide) (by decide) (by decide) (by decide)
  have h4 := h.2.2.2 (by decide)
  refine ⟨⟨by decide, by decide, by decide, by decide, by decide⟩, ?_, ?_⟩
  · have := h4.1
    simpa [WSIZE] using this
  · have := h4.2
    simpa [WSIZE] using this
